import Mathlib

/-!
Verification of the `golang_roadmap` repository examples.

This file embeds, as Lean definitions, the parts of the repository that the
specification's claims are about, and proves (or refutes) each claim.

Covered source files:

* `02_core_language/02_concurrent_workers_w_channels_context/concurrent_workers.go`
  — a worker pool with goroutines, unbuffered channels, `context.WithTimeout`
  cancellation, and a `sync.WaitGroup`.  The program is concurrent, so it is
  embedded as a small-step transition relation on a pool state: each
  constructor of the step relation corresponds to one commit point of the Go
  program (a channel rendezvous, a channel close, a select branch, the
  WaitGroup release, or the context timeout firing).  Channels in the program
  are unbuffered, so a send is modelled as a single rendezvous step that
  requires the receiver to be at its receive point.  Go's `select` with
  several ready cases chooses among them pseudo-randomly (no priority), which
  is modelled by having one enabled step per ready case.

* `08_web_development/01_net_http/main.go` — the `createUserHandler` HTTP
  handler, embedded as a pure function from the request data and the shared
  server state (`users`, `nextID`) to a status code and the new state.

* `unnamed/part_002` (04_basic_data_structures.go) — the integer `Stack` with
  `Push`/`Pop`, embedded over `List Int`.
-/

namespace ConcurrentWorkers

/-- `Job` from concurrent_workers.go: `type Job struct { ID int }`.
The ids dispatched by `main` are `1..numJobs`, so `Nat` suffices. -/
structure Job where
  ID : Nat
deriving DecidableEq

/-- `Result` from concurrent_workers.go:
`type Result struct { JobID int; Value int }`. -/
structure Result where
  JobID : Nat
  Value : Nat
deriving DecidableEq

/-- Control state of one worker goroutine (the body of `worker`):
`idle` = blocked at the `select` at the top of the loop;
`busy j` = took `Job{ID = j}` from the jobs channel and is between the take
and the send `results <- Result{...}` (the sleep, and the send itself, which
blocks until the collector receives);
`done` = the function returned (via the `ctx.Done()` branch or the
`!ok` branch). -/
inductive WState where
  | idle
  | busy (job : Nat)
  | done
deriving DecidableEq

/-- Control state of the collector goroutine (the third `go func()` in
`main`): `collecting` = inside the `for r := 1; r <= numJobs` loop at its
`select`; `cancelledExit` = returned via the `ctx.Done()` branch;
`doneSent` = finished the loop and completed the send `done <- struct{}{}`. -/
inductive CState where
  | collecting
  | cancelledExit
  | doneSent
deriving DecidableEq

/-- Control state of the `main` goroutine after spawning everything:
`waitingWG` = blocked in `wg.Wait()`; `selecting` = after `close(results)`,
at the final `select`; `exitedDone` = took the `<-done` branch;
`exitedCancelled` = took the `<-ctx.Done()` branch. -/
inductive MState where
  | waitingWG
  | selecting
  | exitedDone
  | exitedCancelled
deriving DecidableEq

/-- Global state of one run of the program.
`sent` — how many jobs the dispatcher goroutine has sent (its loop index);
`closedJobs` — whether `close(jobs)` has executed;
`closeCount` — history variable: how many times `close(jobs)` executed;
`workers` — the control state of each of the `numWorkers` workers;
`collected` — history variable: the `Result`s the collector has received,
in receive order;
`cstate`, `mstate` — collector and main control state;
`cancelled` — whether the `context.WithTimeout` context has expired
(monotone: it is set once and never reset). -/
structure PoolState where
  sent : Nat
  closedJobs : Bool
  closeCount : Nat
  workers : List WState
  collected : List Result
  cstate : CState
  mstate : MState
  cancelled : Bool
deriving DecidableEq

/-- One atomic step of the program, for `M = numJobs` jobs.  A worker is
identified by its position in the `workers` list, written as a decomposition
`l₁ ++ w :: l₂`.

* `cancelFire` — the 2-second timeout of `context.WithTimeout` elapses.
* `dispatchSend` — rendezvous of the dispatcher's `jobs <- Job{ID: j}`
  (for `j = sent+1`) with an idle worker's `case job, ok := <-jobs` (the
  worker's select takes the jobs branch; this is one of the ready cases even
  when the context is already done, because Go's select has no priority).
* `closeJobs` — the dispatcher's `close(jobs)` after its send loop.
* `recvClosed` — an idle worker's receive on the closed (and, being
  unbuffered, empty) jobs channel: `ok = false`, the worker returns.
* `workerCancel` — an idle worker's select takes the `<-ctx.Done()` branch.
* `resultSend` — rendezvous of a busy worker's
  `results <- Result{JobID: job.ID, Value: job.ID * 2}` with the collector's
  `case res := <-results` (only available while the collector is still in
  its loop, i.e. has received fewer than `M` results).
* `collectorCancel` — the collector's select takes `<-ctx.Done()`.
* `recvClosedResults` — the collector's `case res := <-results` when the
  results channel is closed: `main` executes `close(results)` right after
  `wg.Wait()` returns (bundled into the `wgWait` step, so the channel is
  closed exactly when `main` has left `waitingWG`); from then on the receive
  is permanently ready and yields the zero value
  `Result{JobID: 0, Value: 0}`.
* `wgWait` — `wg.Wait()` returns once every worker has returned
  (each `defer wg.Done()` has run); `main` then executes `close(results)`
  and reaches its final select.
* `doneSend` — rendezvous of the collector's `done <- struct{}{}` with
  `main`'s `case <-done`.
* `mainCancel` — `main`'s final select takes `<-ctx.Done()`. -/
inductive Step (M : Nat) : PoolState → PoolState → Prop where
  | cancelFire (s : PoolState) :
      s.cancelled = false →
      Step M s { s with cancelled := true }
  | dispatchSend (s : PoolState) (l₁ l₂ : List WState) :
      s.workers = l₁ ++ WState.idle :: l₂ →
      s.sent < M →
      Step M s { s with workers := l₁ ++ WState.busy (s.sent + 1) :: l₂,
                        sent := s.sent + 1 }
  | closeJobs (s : PoolState) :
      s.sent = M →
      s.closedJobs = false →
      Step M s { s with closedJobs := true, closeCount := s.closeCount + 1 }
  | recvClosed (s : PoolState) (l₁ l₂ : List WState) :
      s.workers = l₁ ++ WState.idle :: l₂ →
      s.closedJobs = true →
      Step M s { s with workers := l₁ ++ WState.done :: l₂ }
  | workerCancel (s : PoolState) (l₁ l₂ : List WState) :
      s.workers = l₁ ++ WState.idle :: l₂ →
      s.cancelled = true →
      Step M s { s with workers := l₁ ++ WState.done :: l₂ }
  | resultSend (s : PoolState) (l₁ l₂ : List WState) (j : Nat) :
      s.workers = l₁ ++ WState.busy j :: l₂ →
      s.cstate = CState.collecting →
      s.collected.length < M →
      Step M s { s with workers := l₁ ++ WState.idle :: l₂,
                        collected := s.collected ++ [{ JobID := j, Value := j * 2 }] }
  | collectorCancel (s : PoolState) :
      s.cstate = CState.collecting →
      s.collected.length < M →
      s.cancelled = true →
      Step M s { s with cstate := CState.cancelledExit }
  | recvClosedResults (s : PoolState) :
      s.cstate = CState.collecting →
      s.collected.length < M →
      s.mstate ≠ MState.waitingWG →
      Step M s { s with collected := s.collected ++ [{ JobID := 0, Value := 0 }] }
  | wgWait (s : PoolState) :
      s.mstate = MState.waitingWG →
      (∀ w ∈ s.workers, w = WState.done) →
      Step M s { s with mstate := MState.selecting }
  | doneSend (s : PoolState) :
      s.cstate = CState.collecting →
      s.collected.length = M →
      s.mstate = MState.selecting →
      Step M s { s with cstate := CState.doneSent, mstate := MState.exitedDone }
  | mainCancel (s : PoolState) :
      s.mstate = MState.selecting →
      s.cancelled = true →
      Step M s { s with mstate := MState.exitedCancelled }

/-- The state right after `main` has spawned the `N` workers, the dispatcher
and the collector.  `c0` is the initial value of the cancellation flag:
`false` for the 2-second timeout of the source, `true` to model
`context.WithTimeout(…, 0)` (timeout already fired at start). -/
def initState (N : Nat) (c0 : Bool) : PoolState :=
  { sent := 0, closedJobs := false, closeCount := 0,
    workers := List.replicate N WState.idle, collected := [],
    cstate := CState.collecting, mstate := MState.waitingWG, cancelled := c0 }

/-- A state is reachable in a run of the pool with `N` workers and `M` jobs. -/
def Reachable (N M : Nat) (c0 : Bool) (s : PoolState) : Prop :=
  Relation.ReflTransGen (Step M) (initState N c0) s

/-- The job held by a worker, if it is mid-processing. -/
def busyJob : WState → Option Nat
  | WState.busy j => some j
  | _ => none

/-- The multiset (as a list) of jobs currently being processed. -/
def busyJobs (ws : List WState) : List Nat := ws.filterMap busyJob

/-- A state from which no step at all is possible: every goroutine that has
not returned is blocked forever. -/
def NoStep (M : Nat) (s : PoolState) : Prop := ∀ t, ¬ Step M s t

/-- The job ids of the worker-emitted results among the collector's
receives.  A receive from the closed results channel carries the zero value
`Result{JobID: 0, Value: 0}`, while every dispatched job id is at least 1,
so the worker-emitted receives are exactly those with a nonzero `JobID`. -/
def workerIDs (rs : List Result) : List Nat :=
  (rs.map Result.JobID).filter (fun j => j != 0)

lemma workerIDs_append_nonzero (rs : List Result) (j v : Nat) (hj : 1 ≤ j) :
    workerIDs (rs ++ [{ JobID := j, Value := v }]) = workerIDs rs ++ [j] := by
  have hb : (j != 0) = true := by
    simp only [bne_iff_ne, ne_eq]
    exact Nat.one_le_iff_ne_zero.mp hj
  rw [workerIDs, workerIDs, List.map_append, List.filter_append]
  congr 1
  simp [List.filter_cons, hb]

lemma workerIDs_append_zero (rs : List Result) :
    workerIDs (rs ++ [{ JobID := 0, Value := 0 }]) = workerIDs rs := by
  rw [workerIDs, workerIDs, List.map_append, List.filter_append]
  simp

lemma workerIDs_eq_ids {rs : List Result} (h : ∀ r ∈ rs, 1 ≤ r.JobID) :
    workerIDs rs = rs.map Result.JobID := by
  rw [workerIDs, List.filter_eq_self]
  intro j hj
  obtain ⟨r, hr, rfl⟩ := List.mem_map.mp hj
  simp only [bne_iff_ne, ne_eq]
  exact Nat.one_le_iff_ne_zero.mp (h r hr)

/-- Inductive invariant of the pool, for `N` workers and `M` jobs.
The key clauses: `perm` — the worker-emitted ids among the collected
results together with the jobs currently held by busy workers are, as a
multiset, exactly the dispatched ids `1..sent`; `nozero` — zero-value
receives from the closed results channel can occur (with at least one
worker) only after cancellation, so an uncancelled history contains only
worker-emitted results. -/
structure Inv (N M : Nat) (s : PoolState) : Prop where
  wlen : s.workers.length = N
  sent_le : s.sent ≤ M
  closed_sent : s.closedJobs = true → s.sent = M
  ccount : s.closeCount = if s.closedJobs then 1 else 0
  perm : List.Perm (workerIDs s.collected ++ busyJobs s.workers)
      (List.range' 1 s.sent)
  values : ∀ r ∈ s.collected, r.Value = r.JobID * 2
  len_le : s.collected.length ≤ M
  doneSent_len : s.cstate = CState.doneSent → s.collected.length = M
  doneSent_m : s.cstate = CState.doneSent → s.mstate = MState.exitedDone
  exited_done : s.mstate = MState.exitedDone → s.cstate = CState.doneSent
  cexit_cancel : s.cstate = CState.cancelledExit → s.cancelled = true
  mexit_cancel : s.mstate = MState.exitedCancelled → s.cancelled = true
  after_wg : s.mstate ≠ MState.waitingWG → ∀ w ∈ s.workers, w = WState.done
  done_flag : WState.done ∈ s.workers → s.closedJobs = true ∨ s.cancelled = true
  sent_workers : 1 ≤ s.sent → s.workers ≠ []
  nozero : 1 ≤ N → s.cancelled = false → ∀ r ∈ s.collected, 1 ≤ r.JobID

lemma busyJobs_append (l₁ l₂ : List WState) :
    busyJobs (l₁ ++ l₂) = busyJobs l₁ ++ busyJobs l₂ :=
  List.filterMap_append l₁ l₂ busyJob

lemma busyJobs_cons_idle (l : List WState) :
    busyJobs (WState.idle :: l) = busyJobs l := rfl

lemma busyJobs_cons_done (l : List WState) :
    busyJobs (WState.done :: l) = busyJobs l := rfl

lemma busyJobs_cons_busy (j : Nat) (l : List WState) :
    busyJobs (WState.busy j :: l) = j :: busyJobs l := rfl

lemma busyJobs_replicate_idle (n : Nat) :
    busyJobs (List.replicate n WState.idle) = [] := by
  induction n with
  | zero => rfl
  | succ k ih => simp [List.replicate_succ, busyJobs_cons_idle, ih]

lemma range'_snoc (n : Nat) :
    List.range' 1 (n + 1) = List.range' 1 n ++ [n + 1] := by
  rw [List.range'_concat]
  simp [Nat.add_comm]

lemma done_mem_of_decomp {l₁ l₂ : List WState} {a b : WState}
    (h : WState.done ∈ l₁ ++ a :: l₂) (ha : a ≠ WState.done) :
    WState.done ∈ l₁ ++ b :: l₂ := by
  rcases List.mem_append.mp h with h | h
  · exact List.mem_append.mpr (Or.inl h)
  · rcases List.mem_cons.mp h with h | h
    · exact absurd h.symm ha
    · exact List.mem_append.mpr (Or.inr (List.mem_cons_of_mem _ h))

lemma busyJobs_eq_nil_of_all_done {l : List WState}
    (h : ∀ w ∈ l, w = WState.done) : busyJobs l = [] := by
  induction l with
  | nil => rfl
  | cons a l ih =>
      rcases h a (List.mem_cons_self a l) with rfl
      exact (busyJobs_cons_done l).trans (ih fun w hw => h w (List.mem_cons_of_mem _ hw))

lemma inv_init (N M : Nat) (c0 : Bool) : Inv N M (initState N c0) := by
  refine ⟨?_, ?_, ?_, ?_, ?_, ?_, ?_, ?_, ?_, ?_, ?_, ?_, ?_, ?_, ?_, ?_⟩
  · exact List.length_replicate N WState.idle
  · exact Nat.zero_le M
  · intro h; exact absurd h (by simp [initState])
  · simp [initState]
  · simp [initState, busyJobs_replicate_idle, workerIDs]
  · intro r hr; exact absurd hr (by simp [initState])
  · exact Nat.zero_le M
  · intro h; exact absurd h (by simp [initState])
  · intro h; exact absurd h (by simp [initState])
  · intro h; exact absurd h (by simp [initState])
  · intro h; exact absurd h (by simp [initState])
  · intro h; exact absurd h (by simp [initState])
  · intro h; exact absurd rfl h
  · intro h
    have := List.eq_of_mem_replicate (show WState.done ∈ List.replicate N WState.idle from h)
    exact absurd this (by decide)
  · intro h; exact absurd h (by simp [initState])
  · intro _ _ r hr; exact absurd hr (by simp [initState])

/-- The invariant is preserved by every step. -/
lemma inv_step {N M : Nat} {s t : PoolState} (hs : Inv N M s) (hstep : Step M s t) :
    Inv N M t := by
  cases hstep with
  | cancelFire hc =>
      exact ⟨hs.wlen, hs.sent_le, hs.closed_sent, hs.ccount, hs.perm, hs.values,
        hs.len_le, hs.doneSent_len, fun h => hs.doneSent_m h, fun h => hs.exited_done h,
        fun _ => rfl, fun _ => rfl, fun h => hs.after_wg h, fun _ => Or.inr rfl,
        hs.sent_workers, fun _ h => by simp at h⟩
  | dispatchSend l₁ l₂ hw hlt =>
      refine ⟨?_, ?_, ?_, ?_, ?_, ?_, ?_, ?_, ?_, ?_, ?_, ?_, ?_, ?_, ?_, ?_⟩
      · have hwl := hs.wlen
        rw [hw] at hwl
        simp only [List.length_append, List.length_cons] at hwl ⊢
        omega
      · exact hlt
      · intro h
        have := hs.closed_sent h
        omega
      · exact hs.ccount
      · have hp := hs.perm
        rw [hw, busyJobs_append, busyJobs_cons_idle] at hp
        show List.Perm (workerIDs s.collected ++
            busyJobs (l₁ ++ WState.busy (s.sent + 1) :: l₂)) (List.range' 1 (s.sent + 1))
        rw [busyJobs_append, busyJobs_cons_busy, range'_snoc]
        refine List.Perm.trans ?_ ((List.Perm.cons (s.sent + 1) hp).trans ?_)
        · have := @List.perm_middle Nat (s.sent + 1)
            (workerIDs s.collected ++ busyJobs l₁) (busyJobs l₂)
          simpa [List.append_assoc] using this
        · have := @List.perm_middle Nat (s.sent + 1) (List.range' 1 s.sent) []
          simpa using this.symm
      · exact hs.values
      · exact hs.len_le
      · exact hs.doneSent_len
      · exact hs.doneSent_m
      · exact hs.exited_done
      · exact hs.cexit_cancel
      · exact hs.mexit_cancel
      · intro hm
        have hall := hs.after_wg hm
        rw [hw] at hall
        exact absurd (hall WState.idle (by simp)) (by decide)
      · intro h
        refine hs.done_flag ?_
        rw [hw]
        exact done_mem_of_decomp h (fun hcon => WState.noConfusion hcon)
      · intro _
        simp
      · exact hs.nozero
  | closeJobs hsent hncl =>
      refine ⟨hs.wlen, hs.sent_le, fun _ => hsent, ?_, hs.perm, hs.values, hs.len_le,
        hs.doneSent_len, hs.doneSent_m, hs.exited_done, hs.cexit_cancel,
        hs.mexit_cancel, hs.after_wg, fun _ => Or.inl rfl, hs.sent_workers,
        hs.nozero⟩
      have := hs.ccount
      rw [hncl] at this
      simp only [if_neg Bool.false_ne_true] at this
      show s.closeCount + 1 = if true = true then 1 else 0
      simp [this]
  | recvClosed l₁ l₂ hw hcl =>
      refine ⟨?_, hs.sent_le, hs.closed_sent, hs.ccount, ?_, hs.values, hs.len_le,
        hs.doneSent_len, hs.doneSent_m, hs.exited_done, hs.cexit_cancel,
        hs.mexit_cancel, ?_, fun _ => Or.inl hcl, ?_, hs.nozero⟩
      · have hwl := hs.wlen
        rw [hw] at hwl
        simp only [List.length_append, List.length_cons] at hwl ⊢
        omega
      · have hp := hs.perm
        rw [hw, busyJobs_append, busyJobs_cons_idle] at hp
        show List.Perm (workerIDs s.collected ++
            busyJobs (l₁ ++ WState.done :: l₂)) (List.range' 1 s.sent)
        rw [busyJobs_append, busyJobs_cons_done]
        exact hp
      · intro hm
        have hall := hs.after_wg hm
        rw [hw] at hall
        exact absurd (hall WState.idle (by simp)) (by decide)
      · intro _
        simp
  | workerCancel l₁ l₂ hw hcanc =>
      refine ⟨?_, hs.sent_le, hs.closed_sent, hs.ccount, ?_, hs.values, hs.len_le,
        hs.doneSent_len, hs.doneSent_m, hs.exited_done, hs.cexit_cancel,
        hs.mexit_cancel, ?_, fun _ => Or.inr hcanc, ?_, hs.nozero⟩
      · have hwl := hs.wlen
        rw [hw] at hwl
        simp only [List.length_append, List.length_cons] at hwl ⊢
        omega
      · have hp := hs.perm
        rw [hw, busyJobs_append, busyJobs_cons_idle] at hp
        show List.Perm (workerIDs s.collected ++
            busyJobs (l₁ ++ WState.done :: l₂)) (List.range' 1 s.sent)
        rw [busyJobs_append, busyJobs_cons_done]
        exact hp
      · intro hm
        have hall := hs.after_wg hm
        rw [hw] at hall
        exact absurd (hall WState.idle (by simp)) (by decide)
      · intro _
        simp
  | resultSend l₁ l₂ j hw hc hlen =>
      have hj1 : 1 ≤ j := by
        have hp := hs.perm
        rw [hw, busyJobs_append, busyJobs_cons_busy] at hp
        have hjb : j ∈ workerIDs s.collected ++ (busyJobs l₁ ++ j :: busyJobs l₂) :=
          List.mem_append_right _ (List.mem_append_right _ (List.mem_cons_self _ _))
        have hmem := hp.mem_iff.mp hjb
        rw [List.mem_range'_1] at hmem
        omega
      refine ⟨?_, hs.sent_le, hs.closed_sent, hs.ccount, ?_, ?_, ?_, ?_, ?_, ?_,
        hs.cexit_cancel, hs.mexit_cancel, ?_, ?_, ?_, ?_⟩
      · have hwl := hs.wlen
        rw [hw] at hwl
        simp only [List.length_append, List.length_cons] at hwl ⊢
        omega
      · have hp := hs.perm
        rw [hw, busyJobs_append, busyJobs_cons_busy] at hp
        show List.Perm (workerIDs (s.collected ++ [({ JobID := j, Value := j * 2 } : Result)]) ++
            busyJobs (l₁ ++ WState.idle :: l₂)) (List.range' 1 s.sent)
        rw [busyJobs_append, busyJobs_cons_idle, workerIDs_append_nonzero _ _ _ hj1]
        refine List.Perm.trans ?_ hp
        rw [List.append_assoc]
        refine List.Perm.append_left _ ?_
        show List.Perm (j :: (busyJobs l₁ ++ busyJobs l₂)) (busyJobs l₁ ++ j :: busyJobs l₂)
        exact (List.perm_middle).symm
      · intro r hr
        rcases List.mem_append.mp hr with h | h
        · exact hs.values r h
        · rcases List.mem_singleton.mp h with rfl
          rfl
      · show (s.collected ++ [({ JobID := j, Value := j * 2 } : Result)]).length ≤ M
        simp only [List.length_append, List.length_singleton]
        omega
      · intro h
        simp [hc] at h
      · intro h
        simp [hc] at h
      · intro h
        have := hs.exited_done h
        rw [hc] at this
        exact absurd this (by decide)
      · intro hm
        have hall := hs.after_wg hm
        rw [hw] at hall
        exact absurd (hall (WState.busy j) (by simp)) (fun hcon => WState.noConfusion hcon)
      · intro h
        refine hs.done_flag ?_
        rw [hw]
        exact done_mem_of_decomp h (fun hcon => WState.noConfusion hcon)
      · intro _
        simp
      · intro hN hcanc r hr
        rcases List.mem_append.mp hr with h | h
        · exact hs.nozero hN hcanc r h
        · rcases List.mem_singleton.mp h with rfl
          exact hj1
  | collectorCancel hc hlen hcanc =>
      refine ⟨hs.wlen, hs.sent_le, hs.closed_sent, hs.ccount, hs.perm, hs.values,
        hs.len_le, ?_, ?_, ?_, fun _ => hcanc, hs.mexit_cancel, hs.after_wg,
        hs.done_flag, hs.sent_workers, hs.nozero⟩
      · intro h
        simp at h
      · intro h
        simp at h
      · intro h
        have := hs.exited_done h
        rw [hc] at this
        exact absurd this (by decide)
  | recvClosedResults hc hlen hm =>
      refine ⟨hs.wlen, hs.sent_le, hs.closed_sent, hs.ccount, ?_, ?_, ?_, ?_, ?_,
        ?_, hs.cexit_cancel, hs.mexit_cancel, hs.after_wg, hs.done_flag,
        hs.sent_workers, ?_⟩
      · show List.Perm (workerIDs (s.collected ++ [({ JobID := 0, Value := 0 } : Result)]) ++
            busyJobs s.workers) (List.range' 1 s.sent)
        rw [workerIDs_append_zero]
        exact hs.perm
      · intro r hr
        rcases List.mem_append.mp hr with h | h
        · exact hs.values r h
        · rcases List.mem_singleton.mp h with rfl
          rfl
      · show (s.collected ++ [({ JobID := 0, Value := 0 } : Result)]).length ≤ M
        simp only [List.length_append, List.length_singleton]
        omega
      · intro h
        simp [hc] at h
      · intro h
        simp [hc] at h
      · intro h
        have := hs.exited_done h
        rw [hc] at this
        exact absurd this (by decide)
      · intro hN hcanc r hr
        exfalso
        have hall := hs.after_wg hm
        have hbj := busyJobs_eq_nil_of_all_done hall
        have hne : s.workers ≠ [] := by
          have hwl := hs.wlen
          intro hnil
          rw [hnil] at hwl
          simp at hwl
          omega
        have hdone : WState.done ∈ s.workers := by
          obtain ⟨w, hwmem⟩ := List.exists_mem_of_ne_nil s.workers hne
          have hwd := hall w hwmem
          rw [hwd] at hwmem
          exact hwmem
        have hclosed : s.closedJobs = true := by
          rcases hs.done_flag hdone with h | h
          · exact h
          · rw [hcanc] at h
            exact absurd h (by decide)
        have hsent := hs.closed_sent hclosed
        have hid := workerIDs_eq_ids (hs.nozero hN hcanc)
        have hl := hs.perm.length_eq
        rw [hbj, List.append_nil, hid] at hl
        simp only [List.length_map, List.length_range'] at hl
        omega
  | wgWait hm hall =>
      refine ⟨hs.wlen, hs.sent_le, hs.closed_sent, hs.ccount, hs.perm, hs.values,
        hs.len_le, hs.doneSent_len, ?_, ?_, hs.cexit_cancel, ?_, fun _ => hall, ?_,
        hs.sent_workers, hs.nozero⟩
      · intro h
        have := hs.doneSent_m h
        rw [hm] at this
        exact absurd this (by decide)
      · intro h
        simp at h
      · intro h
        simp at h
      · exact hs.done_flag
  | doneSend hc hlen hm =>
      refine ⟨hs.wlen, hs.sent_le, hs.closed_sent, hs.ccount, hs.perm, hs.values,
        hs.len_le, fun _ => hlen, fun _ => rfl, fun _ => rfl, ?_, ?_, ?_, hs.done_flag,
        hs.sent_workers, hs.nozero⟩
      · intro h
        simp at h
      · intro h
        simp at h
      · intro _
        refine hs.after_wg ?_
        rw [hm]
        decide
  | mainCancel hm hcanc =>
      refine ⟨hs.wlen, hs.sent_le, hs.closed_sent, hs.ccount, hs.perm, hs.values,
        hs.len_le, hs.doneSent_len, ?_, ?_, hs.cexit_cancel, fun _ => hcanc, ?_,
        hs.done_flag, hs.sent_workers, hs.nozero⟩
      · intro h
        have := hs.doneSent_m h
        rw [hm] at this
        exact absurd this (by decide)
      · intro h
        simp at h
      · intro _
        refine hs.after_wg ?_
        rw [hm]
        decide

/-- Every reachable state satisfies the invariant. -/
lemma reachable_inv {N M : Nat} {c0 : Bool} {s : PoolState}
    (hs : Reachable N M c0 s) : Inv N M s := by
  induction hs with
  | refl => exact inv_init N M c0
  | tail _ hstep ih => exact inv_step ih hstep

def wWeight : WState → Nat
  | WState.idle => 2
  | WState.busy _ => 1
  | WState.done => 0

def cWeight : CState → Nat
  | CState.collecting => 1
  | _ => 0

def mWeight : MState → Nat
  | MState.waitingWG => 2
  | MState.selecting => 1
  | _ => 0

/-- Termination measure on pool states. -/
def poolMeasure (M : Nat) (s : PoolState) : Nat :=
  3 * (M - s.sent) + (if s.closedJobs then 0 else 1) +
    (s.workers.map wWeight).sum + 2 * (M - s.collected.length) +
    cWeight s.cstate + mWeight s.mstate + (if s.cancelled then 0 else 1)

/-- Every step strictly decreases the measure: every run of the pool is
finite (the program makes no infinite sequence of commit points). -/
lemma poolMeasure_step {M : Nat} {s t : PoolState} (h : Step M s t) :
    poolMeasure M t < poolMeasure M s := by
  cases h with
  | cancelFire hc =>
      simp only [poolMeasure]
      rw [hc]
      simp
  | dispatchSend l₁ l₂ hw hlt =>
      simp only [poolMeasure]
      rw [hw]
      simp only [List.map_append, List.sum_append, List.map_cons, List.sum_cons, wWeight]
      omega
  | closeJobs hsent hncl =>
      simp only [poolMeasure]
      rw [hncl]
      simp
  | recvClosed l₁ l₂ hw hcl =>
      simp only [poolMeasure]
      rw [hw]
      simp only [List.map_append, List.sum_append, List.map_cons, List.sum_cons, wWeight]
      omega
  | workerCancel l₁ l₂ hw hcanc =>
      simp only [poolMeasure]
      rw [hw]
      simp only [List.map_append, List.sum_append, List.map_cons, List.sum_cons, wWeight]
      omega
  | resultSend l₁ l₂ j hw hc hlen =>
      simp only [poolMeasure]
      rw [hw]
      simp only [List.map_append, List.sum_append, List.map_cons, List.sum_cons, wWeight,
        List.length_append, List.length_singleton]
      omega
  | collectorCancel hc hlen hcanc =>
      simp only [poolMeasure]
      rw [hc]
      simp [cWeight]
  | recvClosedResults hc hlen hm =>
      simp only [poolMeasure]
      simp only [List.length_append, List.length_singleton]
      omega
  | wgWait hm hall =>
      simp only [poolMeasure]
      rw [hm]
      simp [mWeight]
  | doneSend hc hlen hm =>
      simp only [poolMeasure]
      rw [hc, hm]
      simp only [cWeight, mWeight]
      omega
  | mainCancel hm hcanc =>
      simp only [poolMeasure]
      rw [hm]
      simp [mWeight]

/-- Progress: in any reachable state where the context has not fired and
`main` has not yet taken the `<-done` branch, some step is enabled (with at
least one worker).  Together with `poolMeasure_step` this shows every run
without cancellation ends with `main` taking the done branch. -/
lemma progress {N M : Nat} {c0 : Bool} {s : PoolState} (hN : 1 ≤ N)
    (hs : Reachable N M c0 s) (hcanc : s.cancelled = false)
    (hm : s.mstate ≠ MState.exitedDone) : ∃ t, Step M s t := by
  have hinv := reachable_inv hs
  by_cases hidle : WState.idle ∈ s.workers
  · obtain ⟨l₁, l₂, hw⟩ := List.append_of_mem hidle
    by_cases hcl : s.closedJobs = true
    · exact ⟨_, Step.recvClosed s l₁ l₂ hw hcl⟩
    · rcases Nat.lt_or_ge s.sent M with hlt | hge
      · exact ⟨_, Step.dispatchSend s l₁ l₂ hw hlt⟩
      · exact ⟨_, Step.closeJobs s (le_antisymm hinv.sent_le hge) (by simpa using hcl)⟩
  · by_cases hbusy : ∃ j, WState.busy j ∈ s.workers
    · obtain ⟨j, hjmem⟩ := hbusy
      obtain ⟨l₁, l₂, hw⟩ := List.append_of_mem hjmem
      have hjb : j ∈ busyJobs s.workers := by
        rw [hw, busyJobs_append, busyJobs_cons_busy]
        simp
      have hwid : workerIDs s.collected = s.collected.map Result.JobID :=
        workerIDs_eq_ids (hinv.nozero hN hcanc)
      have hlenlt : s.collected.length < M := by
        have hlen := hinv.perm.length_eq
        rw [hwid] at hlen
        simp only [List.length_append, List.length_map, List.length_range'] at hlen
        have hne : busyJobs s.workers ≠ [] := fun hnil => by
          rw [hnil] at hjb
          exact absurd hjb (List.not_mem_nil j)
        have h1 : 1 ≤ (busyJobs s.workers).length :=
          Nat.one_le_iff_ne_zero.mpr fun h0 => hne (List.length_eq_zero.mp h0)
        have := hinv.sent_le
        omega
      have hcol : s.cstate = CState.collecting := by
        cases hcs : s.cstate with
        | collecting => rfl
        | cancelledExit =>
            have := hinv.cexit_cancel hcs
            rw [hcanc] at this
            exact absurd this (by decide)
        | doneSent =>
            have := hinv.doneSent_len hcs
            omega
      exact ⟨_, Step.resultSend s l₁ l₂ j hw hcol hlenlt⟩
    · have hall : ∀ w ∈ s.workers, w = WState.done := by
        intro w hwmem
        cases w with
        | idle => exact absurd hwmem hidle
        | busy j => exact absurd ⟨j, hwmem⟩ hbusy
        | done => rfl
      cases hms : s.mstate with
      | waitingWG => exact ⟨_, Step.wgWait s hms hall⟩
      | selecting =>
          have hne : s.workers ≠ [] := by
            intro hnil
            have := hinv.wlen
            rw [hnil] at this
            simp at this
            omega
          have hdone : WState.done ∈ s.workers := by
            obtain ⟨w, hwmem⟩ := List.exists_mem_of_ne_nil s.workers hne
            have := hall w hwmem
            rw [this] at hwmem
            exact hwmem
          have hclosed : s.closedJobs = true := by
            rcases hinv.done_flag hdone with h | h
            · exact h
            · rw [hcanc] at h
              exact absurd h (by decide)
          have hwid : workerIDs s.collected = s.collected.map Result.JobID :=
            workerIDs_eq_ids (hinv.nozero hN hcanc)
          have hlenM : s.collected.length = M := by
            have hlen := hinv.perm.length_eq
            rw [busyJobs_eq_nil_of_all_done hall, hwid] at hlen
            simp only [List.length_append, List.length_map, List.length_range',
              List.length_nil] at hlen
            have := hinv.closed_sent hclosed
            omega
          have hcol : s.cstate = CState.collecting := by
            cases hcs : s.cstate with
            | collecting => rfl
            | cancelledExit =>
                have := hinv.cexit_cancel hcs
                rw [hcanc] at this
                exact absurd this (by decide)
            | doneSent =>
                have := hinv.doneSent_m hcs
                rw [hms] at this
                exact absurd this (by decide)
          exact ⟨_, Step.doneSend s hcol hlenM hms⟩
      | exitedDone => exact absurd hms hm
      | exitedCancelled =>
          have := hinv.mexit_cancel hms
          rw [hcanc] at this
          exact absurd this (by decide)

/-- The `Result` the worker builds for job `j`:
`Result{JobID: job.ID, Value: job.ID * 2}`. -/
def resF (j : Nat) : Result := { JobID := j, Value := j * 2 }

lemma resF_snoc (k : Nat) :
    (List.range' 1 (k + 1)).map resF = (List.range' 1 k).map resF ++ [resF (k + 1)] := by
  rw [range'_snoc, List.map_append]
  rfl

/-- Intermediate state of a concrete complete run of the source program
(`numWorkers = 3`, `numJobs = 10`) in which worker 1 happens to process every
job: `k` jobs dispatched and collected so far, all workers idle. -/
def midState (k : Nat) : PoolState :=
  { sent := k, closedJobs := false, closeCount := 0,
    workers := [WState.idle, WState.idle, WState.idle],
    collected := (List.range' 1 k).map resF,
    cstate := CState.collecting, mstate := MState.waitingWG, cancelled := false }

/-- As `midState k`, but worker 1 is mid-processing job `k+1`. -/
def midBusy (k : Nat) : PoolState :=
  { sent := k + 1, closedJobs := false, closeCount := 0,
    workers := [WState.busy (k + 1), WState.idle, WState.idle],
    collected := (List.range' 1 k).map resF,
    cstate := CState.collecting, mstate := MState.waitingWG, cancelled := false }

lemma reach_mid : ∀ k, k ≤ 10 → Reachable 3 10 false (midState k) := by
  intro k
  induction k with
  | zero =>
      intro _
      exact Relation.ReflTransGen.refl
  | succ k ih =>
      intro hk
      have h1 := ih (Nat.le_of_succ_le hk)
      have h2 : Reachable 3 10 false (midBusy k) :=
        h1.tail (Step.dispatchSend (midState k) [] [WState.idle, WState.idle] rfl hk)
      have hlen : (midBusy k).collected.length < 10 := by
        simp only [midBusy, List.length_map, List.length_range']
        omega
      have h3 : Reachable 3 10 false
          { midState (k + 1) with
              collected := (List.range' 1 k).map resF ++ [resF (k + 1)] } :=
        h2.tail (Step.resultSend (midBusy k) [] [WState.idle, WState.idle] (k + 1) rfl rfl hlen)
      simp only [midState]
      rw [resF_snoc]
      exact h3

/-- The state right after `close(jobs)` in the concrete complete run. -/
def closedState : PoolState := { midState 10 with closedJobs := true, closeCount := 1 }

lemma reach_closed : Reachable 3 10 false closedState :=
  (reach_mid 10 (Nat.le_refl 10)).tail (Step.closeJobs (midState 10) rfl rfl)

/-- Final state of the concrete complete run: all 10 results collected,
all workers returned, `main` took the `<-done` branch. -/
def fullState : PoolState :=
  { sent := 10, closedJobs := true, closeCount := 1,
    workers := [WState.done, WState.done, WState.done],
    collected := (List.range' 1 10).map resF,
    cstate := CState.doneSent, mstate := MState.exitedDone, cancelled := false }

lemma reach_full : Reachable 3 10 false fullState :=
  ((((reach_closed.tail
      (Step.recvClosed closedState [] [WState.idle, WState.idle] rfl rfl)).tail
      (Step.recvClosed _ [WState.done] [WState.idle] rfl rfl)).tail
      (Step.recvClosed _ [WState.done, WState.done] [] rfl rfl)).tail
      (Step.wgWait _ rfl (by decide))).tail
      (Step.doneSend _ rfl (by decide) rfl)

/-- Final state of a run with `numJobs = 1`, one worker and an immediate
timeout in which every select takes the cancellation branch: all goroutines
except the dispatcher have returned, `main` exited via `<-ctx.Done()`, and
`close(jobs)` never executed. -/
def cancelledRunState : PoolState :=
  { sent := 0, closedJobs := false, closeCount := 0, workers := [WState.done],
    collected := [], cstate := CState.cancelledExit,
    mstate := MState.exitedCancelled, cancelled := true }

lemma reach_cancelledRun : Reachable 1 1 true cancelledRunState :=
  (((Relation.ReflTransGen.refl.tail
      (Step.workerCancel (initState 1 true) [] [] rfl rfl)).tail
      (Step.collectorCancel _ rfl (by decide) rfl)).tail
      (Step.wgWait _ rfl (by decide))).tail
      (Step.mainCancel _ rfl rfl)

/-- A reachable deadlock with `numJobs = 1`, one worker and an immediate
timeout: the worker took job 1 (its select chose the ready jobs branch over
the equally ready `ctx.Done()` branch), the collector exited via
`ctx.Done()`, and now the worker is blocked forever in
`results <- Result{...}` while `main` is blocked forever in `wg.Wait()`. -/
def deadlockState : PoolState :=
  { sent := 1, closedJobs := true, closeCount := 1, workers := [WState.busy 1],
    collected := [], cstate := CState.cancelledExit,
    mstate := MState.waitingWG, cancelled := true }

lemma reach_deadlock : Reachable 1 1 true deadlockState :=
  ((Relation.ReflTransGen.refl.tail
      (Step.dispatchSend (initState 1 true) [] [] rfl (by decide))).tail
      (Step.collectorCancel _ rfl (by decide) rfl)).tail
      (Step.closeJobs _ rfl rfl)

lemma deadlockState_noStep : NoStep 1 deadlockState := by
  intro t h
  cases h with
  | cancelFire hc => simp [deadlockState] at hc
  | dispatchSend l₁ l₂ hw hlt => simp [deadlockState] at hlt
  | closeJobs hsent hncl => simp [deadlockState] at hncl
  | recvClosed l₁ l₂ hw hcl =>
      have hmem : WState.idle ∈ deadlockState.workers := by
        rw [hw]
        exact List.mem_append_right _ (List.mem_cons_self _ _)
      simp [deadlockState] at hmem
  | workerCancel l₁ l₂ hw hcanc =>
      have hmem : WState.idle ∈ deadlockState.workers := by
        rw [hw]
        exact List.mem_append_right _ (List.mem_cons_self _ _)
      simp [deadlockState] at hmem
  | resultSend l₁ l₂ j hw hc hlen => simp [deadlockState] at hc
  | collectorCancel hc hlen hcanc => simp [deadlockState] at hc
  | recvClosedResults hc hlen hm => simp [deadlockState] at hc
  | wgWait hm hall =>
      have := hall (WState.busy 1) (by simp [deadlockState])
      simp at this
  | doneSend hc hlen hm => simp [deadlockState] at hc
  | mainCancel hm hcanc => simp [deadlockState] at hm

/-- Modelled directly from the collector's `ctx.Done()` branch, which runs
`fmt.Println("Result collection cancelled")` and returns.  The printed
marker is a constant string; the two arguments record the data the collector
could have reported — the number of results received so far and `numJobs` —
and the definition ignores both, exactly as the source line does. -/
def collectorCancelMessage (_received : Nat) (_numJobs : Nat) : String :=
  "Result collection cancelled"

/-- A reachable state of a 1-worker, 1-job run in which the context fired
while the worker was mid-job (between taking job 1 and sending its result). -/
def midJobCancelled : PoolState :=
  { sent := 1, closedJobs := false, closeCount := 0, workers := [WState.busy 1],
    collected := [], cstate := CState.collecting, mstate := MState.waitingWG,
    cancelled := true }

/-- The state after the mid-job worker of `midJobCancelled` nevertheless
sends `Result{JobID: 1, Value: 2}` to the collector. -/
def emittedAfterCancel : PoolState :=
  { sent := 1, closedJobs := false, closeCount := 0, workers := [WState.idle],
    collected := [{ JobID := 1, Value := 2 }], cstate := CState.collecting,
    mstate := MState.waitingWG, cancelled := true }

lemma reach_midJobCancelled : Reachable 1 1 false midJobCancelled :=
  (Relation.ReflTransGen.refl.tail
      (Step.dispatchSend (initState 1 false) [] [] rfl (by decide))).tail
      (Step.cancelFire _ rfl)

lemma step_emittedAfterCancel : Step 1 midJobCancelled emittedAfterCancel :=
  Step.resultSend midJobCancelled [] [] 1 rfl rfl (by decide)

/-- A cancelled 1-worker, 1-job run that reaches the done exit on a
zero-value receive: the worker exits via `ctx.Done()`, `wg.Wait` returns
and `main` closes the results channel, the collector's receive on the
closed channel yields `Result{0, 0}` completing its loop, and `main` takes
the `<-done` branch — so a completed exit does not by itself mean the
collected Results are worker-emitted. -/
lemma reach_zeroPadded :
    Reachable 1 1 true
      { sent := 0, closedJobs := false, closeCount := 0,
        workers := [WState.done], collected := [{ JobID := 0, Value := 0 }],
        cstate := CState.doneSent, mstate := MState.exitedDone,
        cancelled := true } :=
  (((Relation.ReflTransGen.refl.tail
      (Step.workerCancel (initState 1 true) [] [] rfl rfl)).tail
      (Step.wgWait _ rfl (by decide))).tail
      (Step.recvClosedResults _ rfl (by decide) (by decide))).tail
      (Step.doneSend _ rfl (by decide) rfl)

end ConcurrentWorkers

namespace NetHttp

/-- `User` from 08_web_development/01_net_http/main.go:
`type User struct { ID int; Name string }`. -/
structure User where
  ID : Int
  Name : String
deriving DecidableEq

/-- The package-level shared state of the server: the `users` slice and the
`nextID` counter (both guarded by `mu`; a handler runs its critical section
atomically, so the state is modelled as a value threaded through the
handler). -/
structure ServerState where
  users : List User
  nextID : Int
deriving DecidableEq

/-- The initial package-level state:
`users = []User{{ID: 1, Name: "Bob"}}`, `nextID = 2`. -/
def initialServerState : ServerState :=
  { users := [{ ID := 1, Name := "Bob" }], nextID := 2 }

/-- `createUserHandler`, embedded as a pure function.  Inputs: the request
method, the `Content-Type` header, and the result of
`json.NewDecoder(r.Body).Decode(&u)` (`none` = decoding failed, `some u` =
the decoded user).  Output: the HTTP status code written and the new shared
state.  The branch order follows the source: method check (405), content
type check (415), JSON decode (400), empty-name validation (400), then the
mutation `u.ID = nextID; nextID++; users = append(users, u)` with
status 201. -/
def createUserHandler (method contentType : String) (body : Option User)
    (st : ServerState) : Nat × ServerState :=
  if method ≠ "POST" then (405, st)
  else if contentType ≠ "application/json" then (415, st)
  else
    match body with
    | none => (400, st)
    | some u =>
      if u.Name = "" then (400, st)
      else
        (201, { users := st.users ++ [({ u with ID := st.nextID } : User)],
                nextID := st.nextID + 1 })

end NetHttp

namespace BasicDataStructures

/-- The integer stack from 04_basic_data_structures.go:
`type Stack struct { data []int }`. -/
structure Stack where
  data : List Int
deriving DecidableEq

/-- `func (s *Stack) Push(x int) { s.data = append(s.data, x) }` —
the receiver is mutated in place; modelled as returning the new stack. -/
def Stack.Push (s : Stack) (x : Int) : Stack := { data := s.data ++ [x] }

/-- `func (s *Stack) Pop() (int, bool)`: on an empty stack returns
`(0, false)` and leaves the data untouched; otherwise takes the last
element, shrinks the slice by one, and returns `(val, true)`.  Modelled as
also returning the resulting stack. -/
def Stack.Pop (s : Stack) : Int × Bool × Stack :=
  if h : s.data = [] then (0, false, s)
  else (s.data.getLast h, true, { data := s.data.dropLast })

end BasicDataStructures

namespace ConcurrentWorkers

/-- C1: in every reachable state of a pool with `N ≥ 1` workers and `M`
jobs, the collector has received at most `M` Results (its loop makes at
most `M` receives); the worker-emitted Results among them (those with a
nonzero job id — receives from the closed results channel carry the zero
value `Result{0,0}`) have pairwise distinct job ids drawn from the
dispatched ids `1..sent`, so every dispatched Job yields at most one
Result in every run, cancelled or not; as long as no cancellation has
occurred, every received Result is worker-emitted, with distinct ids from
the dispatched set; whenever `main` completes via the done branch the
collector received exactly `M` Results; and while no cancellation has
occurred and the run has not completed a step is always enabled, with every
step strictly decreasing `poolMeasure` — so every run without cancellation
terminates completed with exactly `M` distinct dispatched Results. -/
theorem collector_receives_at_most_M (N M : Nat) (c0 : Bool)
    (s : PoolState) (hN : 1 ≤ N) (hs : Reachable N M c0 s) :
    s.collected.length ≤ M ∧
    (workerIDs s.collected).Nodup ∧
    (∀ j ∈ workerIDs s.collected, 1 ≤ j ∧ j ≤ s.sent) ∧
    (s.mstate = MState.exitedDone → s.collected.length = M) ∧
    (s.cancelled = false →
      (s.collected.map Result.JobID).Nodup ∧
      ∀ r ∈ s.collected, 1 ≤ r.JobID ∧ r.JobID ≤ s.sent) ∧
    (s.cancelled = false → s.mstate ≠ MState.exitedDone → ∃ t, Step M s t) ∧
    (∀ t, Step M s t → poolMeasure M t < poolMeasure M s) := by
  have hinv := reachable_inv hs
  have hnd : (workerIDs s.collected).Nodup :=
    (hinv.perm.nodup_iff.mpr (List.nodup_range' 1 s.sent)).of_append_left
  have hbound : ∀ j ∈ workerIDs s.collected, 1 ≤ j ∧ j ≤ s.sent := by
    intro j hj
    have hmem : j ∈ List.range' 1 s.sent :=
      hinv.perm.mem_iff.mp (List.mem_append_left _ hj)
    rw [List.mem_range'_1] at hmem
    omega
  refine ⟨hinv.len_le, hnd, hbound, ?_, ?_, fun hc hm => progress hN hs hc hm,
    fun t ht => poolMeasure_step ht⟩
  · intro hm
    exact hinv.doneSent_len (hinv.exited_done hm)
  · intro hcanc
    have hwid : workerIDs s.collected = s.collected.map Result.JobID :=
      workerIDs_eq_ids (hinv.nozero hN hcanc)
    constructor
    · rw [← hwid]
      exact hnd
    · intro r hr
      refine hbound r.JobID ?_
      rw [hwid]
      exact List.mem_map_of_mem Result.JobID hr

/-- Witness for C1 at the final state of the concrete complete run
(3 workers, 10 jobs, no cancellation). -/
theorem collector_receives_at_most_M_witness :
    1 ≤ 3 ∧ fullState.collected.length ≤ 10 ∧
    (fullState.collected.map Result.JobID).Nodup ∧
    fullState.collected.length = 10 := by
  have h := collector_receives_at_most_M 3 10 false fullState (by decide) reach_full
  exact ⟨by decide, h.1, (h.2.2.2.2.1 rfl).1, h.2.2.2.1 rfl⟩

/-- C2: every Result in the collector's receive history satisfies
`Value = JobID * 2` (worker-emitted Results by the computation
`job.ID * 2`, and zero-value receives from the closed results channel
trivially, `0 = 0 * 2`); and in the claim's scenario — 3 workers, 10 jobs,
no timeout, i.e. a run that completes with no cancellation — the collector
received 10 Results whose job-id multiset is exactly `{1..10}` with
`value = job_id * 2` for each.  (Without the no-cancellation hypothesis the
scenario conclusion would be false of the program: a cancelled run can
finish the collector's loop on zero-value receives and exit via `<-done`
with `JobID = 0` entries.) -/
theorem result_value_is_twice_job_id (N M : Nat) (c0 : Bool)
    (s : PoolState) (hs : Reachable N M c0 s) :
    (∀ r ∈ s.collected, r.Value = r.JobID * 2) ∧
    (∀ s10 : PoolState, Reachable 3 10 false s10 → s10.cancelled = false →
      s10.mstate = MState.exitedDone →
      List.Perm (s10.collected.map Result.JobID) (List.range' 1 10) ∧
      ∀ r ∈ s10.collected, r.Value = r.JobID * 2) := by
  refine ⟨(reachable_inv hs).values, ?_⟩
  intro s10 h10 hcanc hm
  have hinv := reachable_inv h10
  have hall : ∀ w ∈ s10.workers, w = WState.done := by
    refine hinv.after_wg ?_
    rw [hm]
    decide
  have hbj := busyJobs_eq_nil_of_all_done hall
  have hwid : workerIDs s10.collected = s10.collected.map Result.JobID :=
    workerIDs_eq_ids (hinv.nozero (by decide) hcanc)
  have hlen : s10.collected.length = 10 := hinv.doneSent_len (hinv.exited_done hm)
  have hperm := hinv.perm
  rw [hbj, List.append_nil, hwid] at hperm
  have hsent : s10.sent = 10 := by
    have hl := hperm.length_eq
    simp only [List.length_map, List.length_range'] at hl
    omega
  rw [hsent] at hperm
  exact ⟨hperm, hinv.values⟩

/-- Witness for C2 at the final state of the concrete complete run. -/
theorem result_value_is_twice_job_id_witness :
    List.Perm (fullState.collected.map Result.JobID) (List.range' 1 10) ∧
    ∀ r ∈ fullState.collected, r.Value = r.JobID * 2 :=
  (result_value_is_twice_job_id 3 10 false fullState reach_full).2
    fullState reach_full rfl rfl

/-- C3 counterexample: the marker the collector prints on cancellation is
identical whether 0 or 9 of the 10 jobs completed — it is the constant
string "Result collection cancelled" and does not state how many of `M`
jobs completed, so runs with different completed counts are
indistinguishable by the marker. -/
theorem cancel_marker_has_no_count :
    collectorCancelMessage 0 10 = collectorCancelMessage 9 10 ∧
    collectorCancelMessage 9 10 = "Result collection cancelled" :=
  ⟨rfl, rfl⟩

/-- C3 amended: when cancellation fires before all `M` Results are
gathered, the collector stops and prints the fixed marker "Result
collection cancelled" — so a cancelled run is marked as cancelled (the
collector reaches its cancelled exit only when the context has actually
fired) — but the marker does not include how many of `M` jobs completed,
and the collected subset is not returned (results were only printed as they
arrived). -/
theorem cancel_marker_is_constant (k m N M : Nat) (c0 : Bool)
    (s : PoolState) (hs : Reachable N M c0 s)
    (hc : s.cstate = CState.cancelledExit) :
    collectorCancelMessage k m = "Result collection cancelled" ∧
    s.cancelled = true :=
  ⟨rfl, (reachable_inv hs).cexit_cancel hc⟩

/-- Witness for the amended C3 at a concrete cancelled run. -/
theorem cancel_marker_is_constant_witness :
    collectorCancelMessage 0 10 = "Result collection cancelled" ∧
    cancelledRunState.cancelled = true :=
  cancel_marker_is_constant 0 10 1 1 true cancelledRunState reach_cancelledRun rfl

/-- C4 counterexample: in the initial state of a 1-worker, 1-job run whose
timeout has already fired, the cancellation branch and the jobs branch of
the worker's select are simultaneously ready, and taking the Job is a legal
step that yields a reachable state — the worker does not always take the
cancellation branch when both are ready. -/
theorem select_can_take_job_when_cancelled :
    (initState 1 true).cancelled = true ∧
    Step 1 (initState 1 true) { initState 1 true with workers := [WState.done] } ∧
    Step 1 (initState 1 true)
      { initState 1 true with workers := [WState.busy 1], sent := 1 } ∧
    Reachable 1 1 true
      { initState 1 true with workers := [WState.busy 1], sent := 1 } :=
  ⟨rfl, Step.workerCancel _ [] [] rfl rfl,
    Step.dispatchSend _ [] [] rfl (by decide),
    Relation.ReflTransGen.single (Step.dispatchSend _ [] [] rfl (by decide))⟩

/-- C4 amended: when a pending Job send and the fired cancellation signal
are simultaneously ready at an idle worker's select, both branches are
enabled steps: Go's select picks among ready cases pseudo-randomly, so the
worker may stop, but cancellation is not preferred over the Job. -/
theorem select_races_job_and_cancel (M : Nat) (s : PoolState)
    (l₁ l₂ : List WState) (hw : s.workers = l₁ ++ WState.idle :: l₂)
    (hcanc : s.cancelled = true) (hsend : s.sent < M) :
    Step M s { s with workers := l₁ ++ WState.done :: l₂ } ∧
    Step M s { s with workers := l₁ ++ WState.busy (s.sent + 1) :: l₂,
                      sent := s.sent + 1 } :=
  ⟨Step.workerCancel s l₁ l₂ hw hcanc, Step.dispatchSend s l₁ l₂ hw hsend⟩

/-- Witness for the amended C4 at the initial state of an immediately
cancelled 1-worker, 1-job run. -/
theorem select_races_job_and_cancel_witness :
    (initState 1 true).workers = [] ++ WState.idle :: [] ∧
    (initState 1 true).cancelled = true ∧ (initState 1 true).sent < 1 ∧
    Step 1 (initState 1 true)
      { initState 1 true with workers := [] ++ WState.done :: [] } := by
  have h := select_races_job_and_cancel 1 (initState 1 true) [] [] rfl rfl (by decide)
  exact ⟨rfl, rfl, by decide, h.1⟩

/-- C5 counterexample: a concrete 1-worker, 1-job run in which the context
fires while the worker is mid-job, and the worker nevertheless emits the
full `Result{JobID: 1, Value: 2}` afterwards — the send `results <- ...`
in the worker is not guarded by `ctx.Done()`. -/
theorem midjob_cancel_still_emits :
    Reachable 1 1 false midJobCancelled ∧
    midJobCancelled.cancelled = true ∧
    midJobCancelled.workers = [WState.busy 1] ∧
    Step 1 midJobCancelled emittedAfterCancel ∧
    Reachable 1 1 false emittedAfterCancel ∧
    emittedAfterCancel.collected = [{ JobID := 1, Value := 2 }] :=
  ⟨reach_midJobCancelled, rfl, rfl, step_emittedAfterCancel,
    reach_midJobCancelled.tail step_emittedAfterCancel, rfl⟩

/-- C5 amended: a worker that has taken a Job never abandons it: in every
step, either no worker changes phase — and the collected list is unchanged
or grows by a zero-value `Result{0,0}` receive from the closed results
channel, which involves no worker and no dispatched job — or an idle
worker takes the next job, or a busy worker's full Result is delivered to
the collector.  Cancellation is observed only between jobs, at the top of
the select loop, and never suppresses the Result of a job already taken. -/
theorem busy_worker_always_emits (M : Nat) (s t : PoolState)
    (h : Step M s t) :
    (busyJobs t.workers = busyJobs s.workers ∧
      (t.collected = s.collected ∨
        t.collected = s.collected ++ [{ JobID := 0, Value := 0 }])) ∨
    (∃ l₁ l₂, s.workers = l₁ ++ WState.idle :: l₂ ∧
      t.workers = l₁ ++ WState.busy (s.sent + 1) :: l₂ ∧
      t.collected = s.collected) ∨
    (∃ l₁ l₂ j, s.workers = l₁ ++ WState.busy j :: l₂ ∧
      t.workers = l₁ ++ WState.idle :: l₂ ∧
      t.collected = s.collected ++ [{ JobID := j, Value := j * 2 }]) := by
  cases h with
  | dispatchSend l₁ l₂ hw hlt => exact Or.inr (Or.inl ⟨l₁, l₂, hw, rfl, rfl⟩)
  | resultSend l₁ l₂ j hw hc hlen => exact Or.inr (Or.inr ⟨l₁, l₂, j, hw, rfl, rfl⟩)
  | recvClosed l₁ l₂ hw hcl =>
      refine Or.inl ⟨?_, Or.inl rfl⟩
      show busyJobs (l₁ ++ WState.done :: l₂) = busyJobs s.workers
      rw [hw, busyJobs_append, busyJobs_append, busyJobs_cons_done, busyJobs_cons_idle]
  | workerCancel l₁ l₂ hw hcanc =>
      refine Or.inl ⟨?_, Or.inl rfl⟩
      show busyJobs (l₁ ++ WState.done :: l₂) = busyJobs s.workers
      rw [hw, busyJobs_append, busyJobs_append, busyJobs_cons_done, busyJobs_cons_idle]
  | recvClosedResults hc hlen hm => exact Or.inl ⟨rfl, Or.inr rfl⟩
  | cancelFire hc => exact Or.inl ⟨rfl, Or.inl rfl⟩
  | closeJobs hsent hncl => exact Or.inl ⟨rfl, Or.inl rfl⟩
  | collectorCancel hc hlen hcanc => exact Or.inl ⟨rfl, Or.inl rfl⟩
  | wgWait hm hall => exact Or.inl ⟨rfl, Or.inl rfl⟩
  | doneSend hc hlen hm => exact Or.inl ⟨rfl, Or.inl rfl⟩
  | mainCancel hm hcanc => exact Or.inl ⟨rfl, Or.inl rfl⟩

/-- Witness for the amended C5 at the concrete mid-job emission step. -/
theorem busy_worker_always_emits_witness :
    (busyJobs emittedAfterCancel.workers = busyJobs midJobCancelled.workers ∧
      (emittedAfterCancel.collected = midJobCancelled.collected ∨
        emittedAfterCancel.collected =
          midJobCancelled.collected ++ [{ JobID := 0, Value := 0 }])) ∨
    (∃ l₁ l₂, midJobCancelled.workers = l₁ ++ WState.idle :: l₂ ∧
      emittedAfterCancel.workers =
        l₁ ++ WState.busy (midJobCancelled.sent + 1) :: l₂ ∧
      emittedAfterCancel.collected = midJobCancelled.collected) ∨
    (∃ l₁ l₂ j, midJobCancelled.workers = l₁ ++ WState.busy j :: l₂ ∧
      emittedAfterCancel.workers = l₁ ++ WState.idle :: l₂ ∧
      emittedAfterCancel.collected =
        midJobCancelled.collected ++ [{ JobID := j, Value := j * 2 }]) :=
  busy_worker_always_emits 1 midJobCancelled emittedAfterCancel
    step_emittedAfterCancel

/-- C6 counterexample: a run that terminates (main exited via the
cancellation branch) in which `close(jobs)` never executed: with an
immediate timeout and one job, the worker and the collector take their
cancellation branches and `main` exits while the dispatcher is still
blocked in `jobs <- Job{ID: 1}` — so the input channel is not closed
exactly once in every run. -/
theorem cancelled_run_never_closes :
    Reachable 1 1 true cancelledRunState ∧
    cancelledRunState.mstate = MState.exitedCancelled ∧
    cancelledRunState.closeCount = 0 :=
  ⟨reach_cancelledRun, rfl, rfl⟩

/-- C6 amended: the jobs channel is closed at most once; any close happens
only after all `M` jobs have been enqueued; once closed, no step ever sends
another job, re-closes, or re-opens the channel; and in every run of a pool
with at least one worker and one job that completes without cancellation
the close happened exactly once.  (In a cancelled run the dispatcher may
stay blocked on a send forever and never reach `close(jobs)`; with zero
workers `wg.Wait` returns at once and the collector completes on zero-value
receives from the closed results channel, again with no close.) -/
theorem close_once_after_all_sends (N M : Nat) (c0 : Bool)
    (s : PoolState) (hs : Reachable N M c0 s) :
    s.closeCount ≤ 1 ∧
    (s.closedJobs = true → s.sent = M) ∧
    (∀ t, Step M s t → s.closedJobs = true →
      t.sent = s.sent ∧ t.closedJobs = true ∧ t.closeCount = s.closeCount) ∧
    (1 ≤ N → 1 ≤ M → s.cancelled = false → s.mstate = MState.exitedDone →
      s.closeCount = 1) := by
  have hinv := reachable_inv hs
  refine ⟨?_, hinv.closed_sent, ?_, ?_⟩
  · rw [hinv.ccount]
    cases s.closedJobs <;> simp
  · intro t ht hcl
    cases ht with
    | dispatchSend l₁ l₂ hw hlt =>
        exact absurd (hinv.closed_sent hcl) (Nat.ne_of_lt hlt)
    | closeJobs hsent hncl =>
        rw [hcl] at hncl
        exact absurd hncl (by decide)
    | cancelFire hc => exact ⟨rfl, hcl, rfl⟩
    | recvClosed l₁ l₂ hw hcl' => exact ⟨rfl, hcl, rfl⟩
    | workerCancel l₁ l₂ hw hcanc => exact ⟨rfl, hcl, rfl⟩
    | resultSend l₁ l₂ j hw hc hlen => exact ⟨rfl, hcl, rfl⟩
    | collectorCancel hc hlen hcanc => exact ⟨rfl, hcl, rfl⟩
    | recvClosedResults hc hlen hm => exact ⟨rfl, hcl, rfl⟩
    | wgWait hm hall => exact ⟨rfl, hcl, rfl⟩
    | doneSend hc hlen hm => exact ⟨rfl, hcl, rfl⟩
    | mainCancel hm hcanc => exact ⟨rfl, hcl, rfl⟩
  · intro hN hM hcanc hm
    have hall : ∀ w ∈ s.workers, w = WState.done := by
      refine hinv.after_wg ?_
      rw [hm]
      decide
    have hbj := busyJobs_eq_nil_of_all_done hall
    have hwid : workerIDs s.collected = s.collected.map Result.JobID :=
      workerIDs_eq_ids (hinv.nozero hN hcanc)
    have hlenM : s.collected.length = M := hinv.doneSent_len (hinv.exited_done hm)
    have hsent : s.sent = M := by
      have hl := hinv.perm.length_eq
      rw [hbj, List.append_nil, hwid] at hl
      simp only [List.length_map, List.length_range'] at hl
      omega
    have hne : s.workers ≠ [] := hinv.sent_workers (by omega)
    have hdone : WState.done ∈ s.workers := by
      obtain ⟨w, hwmem⟩ := List.exists_mem_of_ne_nil s.workers hne
      have hwd := hall w hwmem
      rw [hwd] at hwmem
      exact hwmem
    have hclosed : s.closedJobs = true := by
      rcases hinv.done_flag hdone with h | h
      · exact h
      · rw [hcanc] at h
        exact absurd h (by decide)
    rw [hinv.ccount, hclosed]
    rfl

/-- Witness for the amended C6 at the final state of the concrete complete
run: the channel was closed exactly once. -/
theorem close_once_after_all_sends_witness :
    fullState.closeCount ≤ 1 ∧ fullState.closeCount = 1 := by
  have h := close_once_after_all_sends 3 10 false fullState reach_full
  exact ⟨h.1, h.2.2.2 (by decide) (by decide) rfl rfl⟩

/-- C7: when the jobs channel is closed (hence empty — it is unbuffered and
every send rendezvoused before the close), an idle worker's receive is
ready with `ok = false` and the worker returns normally (reaches `done`);
moreover from a closed state no step ever dispatches another job, so the
worker cannot be handed new work or spin: its loop terminates. -/
theorem worker_terminates_on_closed_channel (N M : Nat) (c0 : Bool)
    (s : PoolState) (l₁ l₂ : List WState) (hs : Reachable N M c0 s)
    (hcl : s.closedJobs = true) (hw : s.workers = l₁ ++ WState.idle :: l₂) :
    Step M s { s with workers := l₁ ++ WState.done :: l₂ } ∧
    (∀ t, Step M s t → t.sent = s.sent) := by
  refine ⟨Step.recvClosed s l₁ l₂ hw hcl, ?_⟩
  intro t ht
  cases ht with
  | dispatchSend l₁' l₂' hw' hlt =>
      exact absurd ((reachable_inv hs).closed_sent hcl) (Nat.ne_of_lt hlt)
  | cancelFire hc => rfl
  | closeJobs hsent hncl => rfl
  | recvClosed l₁' l₂' hw' hcl' => rfl
  | workerCancel l₁' l₂' hw' hcanc => rfl
  | resultSend l₁' l₂' j hw' hc hlen => rfl
  | collectorCancel hc hlen hcanc => rfl
  | recvClosedResults hc hlen hm => rfl
  | wgWait hm hall => rfl
  | doneSend hc hlen hm => rfl
  | mainCancel hm hcanc => rfl

/-- Witness for C7 at the concrete state just after `close(jobs)` in the
complete 3-worker run. -/
theorem worker_terminates_on_closed_channel_witness :
    closedState.closedJobs = true ∧
    Step 10 closedState
      { closedState with
          workers := [] ++ WState.done :: [WState.idle, WState.idle] } := by
  have h := worker_terminates_on_closed_channel 3 10 false closedState []
    [WState.idle, WState.idle] reach_closed rfl rfl
  exact ⟨rfl, h.1⟩

/-- C8 counterexample: with the timeout firing immediately, a 1-worker,
1-job run can reach a state where NO step is enabled although `main` has
not exited: the worker (whose select chose the ready jobs branch over the
equally ready `ctx.Done()` branch) is blocked forever in `results <- ...`
because the collector already exited, and `main` is blocked forever in
`wg.Wait()` — the pool does not reach the Cancelled terminal state and two
tasks stay blocked, contradicting the claimed bounded, deadlock-free
shutdown (and no completed count is ever reported). -/
theorem immediate_timeout_can_deadlock :
    Reachable 1 1 true deadlockState ∧
    deadlockState.cancelled = true ∧
    deadlockState.mstate = MState.waitingWG ∧
    deadlockState.workers = [WState.busy 1] ∧
    NoStep 1 deadlockState :=
  ⟨reach_deadlock, rfl, rfl, rfl, deadlockState_noStep⟩

/-- C8 amended: with an immediate timeout the collector receives between 0
and `M` results, and `main` reaches its cancelled exit only with the
context actually fired; the pool CAN reach the cancelled exit (for example
when every select takes the cancellation branch), but it is not guaranteed
to — some schedules deadlock with a worker blocked on the results send —
and no completed count is reported on cancellation. -/
theorem immediate_timeout_bounds (N M : Nat) (s : PoolState)
    (hs : Reachable N M true s) :
    s.collected.length ≤ M ∧
    (s.mstate = MState.exitedCancelled → s.cancelled = true) ∧
    (∃ u, Reachable 1 1 true u ∧ u.mstate = MState.exitedCancelled) :=
  ⟨(reachable_inv hs).len_le, (reachable_inv hs).mexit_cancel,
    ⟨cancelledRunState, reach_cancelledRun, rfl⟩⟩

/-- Witness for the amended C8 at the concrete fully cancelled run. -/
theorem immediate_timeout_bounds_witness :
    cancelledRunState.collected.length ≤ 1 ∧
    cancelledRunState.cancelled = true := by
  have h := immediate_timeout_bounds 1 1 cancelledRunState reach_cancelledRun
  exact ⟨h.1, h.2.1 rfl⟩

end ConcurrentWorkers

namespace NetHttp

/-- C9: every request rejected by `createUserHandler` — wrong method (405),
a Content-Type other than application/json (415), an undecodable JSON body
(400), or an empty Name field (400) — writes that error status and leaves
the shared state unchanged: `users` and `nextID` are exactly as before. -/
theorem rejected_requests_leave_state_unchanged
    (method contentType : String) (body : Option User) (st : ServerState) :
    (method ≠ "POST" →
      createUserHandler method contentType body st = (405, st)) ∧
    (method = "POST" → contentType ≠ "application/json" →
      createUserHandler method contentType body st = (415, st)) ∧
    (method = "POST" → contentType = "application/json" → body = none →
      createUserHandler method contentType body st = (400, st)) ∧
    (∀ u, method = "POST" → contentType = "application/json" →
      body = some u → u.Name = "" →
      createUserHandler method contentType body st = (400, st)) := by
  refine ⟨?_, ?_, ?_, ?_⟩
  · intro h
    simp [createUserHandler, h]
  · intro h1 h2
    simp [createUserHandler, h1, h2]
  · intro h1 h2 h3
    simp [createUserHandler, h1, h2, h3]
  · intro u h1 h2 h3 h4
    simp [createUserHandler, h1, h2, h3, h4]

/-- Witness for C9: a GET request against the initial state is rejected
with 405 and the state is unchanged. -/
theorem rejected_requests_witness :
    ("GET" : String) ≠ "POST" ∧
    createUserHandler ("GET") ("application/json") none initialServerState =
      (405, initialServerState) := by
  refine ⟨by decide, ?_⟩
  exact (rejected_requests_leave_state_unchanged ("GET") ("application/json")
    none initialServerState).1 (by decide)

end NetHttp

namespace BasicDataStructures

/-- C10: for every stack `s` and integer `x`, `Pop` right after `Push x`
returns `(x, true)` and restores `s` (LIFO round trip), and `Pop` on the
empty stack returns `(0, false)` leaving the stack empty and unchanged. -/
theorem push_pop_roundtrip :
    (∀ (s : Stack) (x : Int), (s.Push x).Pop = (x, true, s)) ∧
    Stack.Pop { data := [] } = (0, false, ({ data := [] } : Stack)) := by
  constructor
  · intro s x
    have hne : (Stack.Push s x).data ≠ [] := by
      simp [Stack.Push]
    rw [Stack.Pop, dif_neg hne]
    refine Prod.ext ?_ (Prod.ext rfl ?_)
    · exact List.getLast_concat _
    · show ({ data := (s.data ++ [x]).dropLast } : Stack) = s
      rw [List.dropLast_concat]
  · rw [Stack.Pop, dif_pos rfl]

end BasicDataStructures
